import Mathlib

/-!
Shallow embedding of the seed bootstrap script of the Strapi blog
template (the single CommonJS module of the repository) and theorems
about its specification.  Stateful framework calls (plugin store,
asset store, upload service, document creation) are modelled by
explicit passing of a `World` record; async functions that can reject
return `Except Err`.
-/

/-- Line terminator characters of JS: the regex wildcard in
`replace` patterns matches every character except these. -/
def isLineTerm (c : Char) : Bool :=
  c = '\n' || c = '\r' || c.toNat = 0x2028 || c.toNat = 0x2029

/-- Models the JS expression used as asset-store lookup key,
`fileName.replace` with the pattern "a dot followed by any characters
up to the end of the string", on the character list.  A match starts
at the leftmost dot after which no line terminator occurs (the regex
wildcard cannot cross a line terminator and the anchor requires the
end of input); everything from that dot on is removed.  If no dot
qualifies, the string is returned unchanged. -/
def stripFromDot : List Char → List Char
  | [] => []
  | c :: cs =>
    if c = '.' && cs.all (fun d => !isLineTerm d) then []
    else c :: stripFromDot cs

/-- The asset-store lookup key computed in `checkFileExistsBeforeUpload`:
`fileName.replace` of the dot-to-end pattern by the empty string. -/
def stripName (s : String) : String := String.mk (stripFromDot s.data)

/-- Models JS `fileName.split` at the separator dot, on the character
list.  The result is never empty. -/
def splitOnDot : List Char → List (List Char)
  | [] => [[]]
  | c :: cs =>
    if c = '.' then [] :: splitOnDot cs
    else
      match splitOnDot cs with
      | [] => [[c]]
      | p :: ps => (c :: p) :: ps

/-- Models the JS expression `fileName.split` at dot followed by
`shift`, i.e. the first component of the split: the name given to a
newly uploaded file in `checkFileExistsBeforeUpload`. -/
def fileNameNoExtension (s : String) : String :=
  String.mk ((splitOnDot s.data).headD [])

/-- The substring of a filename before its first dot: the plain
characterization that the spec uses for the stem of a filename. -/
def takeBeforeDot : List Char → List Char
  | [] => []
  | c :: cs => if c = '.' then [] else c :: takeBeforeDot cs

/-- A filename free of JS line terminator characters. -/
def noLineTerm (s : String) : Bool := s.data.all (fun c => !isLineTerm c)

/-- A record of the upload plugin's file store. -/
structure FileRecord where
  id : Nat
  name : String
deriving DecidableEq

/-- Result value of `checkFileExistsBeforeUpload`: the lone record
itself when the collected list has exactly one element, the list
otherwise (the JS ternary on the array length). -/
inductive FilesResult where
  | one : FileRecord → FilesResult
  | many : List FileRecord → FilesResult
deriving DecidableEq

/-- The records carried by a `FilesResult`. -/
def resultRecords : FilesResult → List FileRecord
  | .one r => [r]
  | .many l => l

/-- A value held by the `file` or `files` property of a content block:
a bare filename string, a list of filename strings, a resolved
upload result, or absent on block kinds that have no such field. -/
inductive BlockField where
  | str : String → BlockField
  | strList : List String → BlockField
  | res : FilesResult → BlockField
  | absent : BlockField
deriving DecidableEq

/-- A content block of an article or of the about page.  `component`
is the JS component tag; `rest` stands for all the
other properties of the block, which the script never touches. -/
structure Block where
  component : String
  file : BlockField
  files : BlockField
  rest : String
deriving DecidableEq

/-- Errors with which the modelled framework calls can reject. -/
inductive Err where
  | storeError
  | permError
  | createError
deriving DecidableEq

/-- Observable state of the backend together with the failure switches
used to model rejecting framework calls. -/
structure World where
  /-- value of the run-once key in the setup plugin store -/
  initHasRun : Option Bool
  /-- the plugin store rejects on access -/
  storeFails : Bool
  /-- the users-permissions queries reject -/
  permFails : Bool
  /-- document keys for which document creation rejects -/
  failingDocs : List String
  /-- records of the upload plugin's file store -/
  assets : List FileRecord
  /-- id given to the next uploaded file -/
  nextId : Nat
  /-- names of the files uploaded so far, in order -/
  uploadLog : List String
  /-- fully qualified permission actions created so far -/
  permissions : List String
  /-- (model, document key) pairs created so far, in order -/
  createdDocs : List (String × String)
  /-- (model, document key) pairs whose creation failed and was logged -/
  errlog : List (String × String)
deriving DecidableEq

/-- Models the query of the upload plugin's file store for one record
whose name equals the given key. -/
def findOneFile (assets : List FileRecord) (key : String) : Option FileRecord :=
  assets.find? (fun r => r.name == key)

/-- Models `uploadFile`: the upload service stores a new file record
under the given name and returns it. -/
def uploadFile (name : String) (w : World) : FileRecord × World :=
  let r : FileRecord := { id := w.nextId, name := name }
  (r, { w with assets := w.assets ++ [r], nextId := w.nextId + 1,
                uploadLog := w.uploadLog ++ [name] })

/-- The loop of `checkFileExistsBeforeUpload` over the copied input
list, accumulating the lists of existing and of newly uploaded
records: each filename is looked up by its stripped name; if found the
existing record is reused, otherwise the file is uploaded under the
name before the first dot of the filename. -/
def processFiles : List String → List FileRecord → List FileRecord → World →
    (List FileRecord × List FileRecord) × World
  | [], existingFiles, uploadedFiles, w => ((existingFiles, uploadedFiles), w)
  | fileName :: restFiles, existingFiles, uploadedFiles, w =>
    match findOneFile w.assets (stripName fileName) with
    | some fileWhereName =>
      processFiles restFiles (existingFiles ++ [fileWhereName]) uploadedFiles w
    | none =>
      let (file, w') := uploadFile (fileNameNoExtension fileName) w
      processFiles restFiles existingFiles (uploadedFiles ++ [file]) w'

/-- Models `checkFileExistsBeforeUpload`: run the loop, concatenate
existing records before uploaded ones, and return the lone record when
there is exactly one, the list otherwise. -/
def checkFileExistsBeforeUpload (files : List String) (w : World) :
    FilesResult × World :=
  let ((existingFiles, uploadedFiles), w') := processFiles files [] [] w
  let allFiles := existingFiles ++ uploadedFiles
  ((match allFiles with
    | [f] => FilesResult.one f
    | l => FilesResult.many l), w')

/-- Extraction of a block field as a filename string, as the JS media
branch does when it passes the field to the resolver.  Seed data
always holds a string there; other shapes give a default. -/
def fieldString : BlockField → String
  | .str s => s
  | _ => ""

/-- Extraction of a block field as a list of filename strings, as the
JS slider branch does.  Seed data always holds a string list there;
other shapes give a default. -/
def fieldStrings : BlockField → List String
  | .strList l => l
  | _ => []

/-- Models `updateBlocks`: media blocks get their single file
reference resolved, slider blocks their file list, every other block
is pushed unchanged; a modified block is a copy of the input block
with only the resolved field replaced. -/
def updateBlocks : List Block → World → List Block × World
  | [], w => ([], w)
  | block :: restBlocks, w =>
    if block.component = "shared.media" then
      let (uploadedFiles, w1) := checkFileExistsBeforeUpload [fieldString block.file] w
      let blockCopy := { block with file := BlockField.res uploadedFiles }
      let (tailBlocks, w2) := updateBlocks restBlocks w1
      (blockCopy :: tailBlocks, w2)
    else if block.component = "shared.slider" then
      let (existingAndUploadedFiles, w1) :=
        checkFileExistsBeforeUpload (fieldStrings block.files) w
      let blockCopy := { block with files := BlockField.res existingAndUploadedFiles }
      let (tailBlocks, w2) := updateBlocks restBlocks w1
      (blockCopy :: tailBlocks, w2)
    else
      let (tailBlocks, w1) := updateBlocks restBlocks w
      (block :: tailBlocks, w1)

/-- Models the create call on the document service: it rejects exactly
for the documents listed in `failingDocs`, otherwise the (model, key)
pair is recorded as created and published. -/
def documentsCreate (model docKey : String) (w : World) : Except Err World :=
  if docKey ∈ w.failingDocs then .error .createError
  else .ok { w with createdDocs := w.createdDocs ++ [(model, docKey)] }

/-- Models `createDocument`: the create call is wrapped in try/catch;
on rejection the model and document are logged to the error log and
the function returns normally. -/
def createDocument (model docKey : String) (w : World) : World :=
  match documentsCreate model docKey w with
  | .ok w' => w'
  | .error _ => { w with errlog := w.errlog ++ [(model, docKey)] }

/-- An article seed record: its slug (which identifies the built
document and names its cover image) and its content blocks. -/
structure Article where
  slug : String
  blocks : List Block
deriving DecidableEq

/-- An author seed record: a key identifying the document and the
avatar filename. -/
structure Author where
  key : String
  avatar : String
deriving DecidableEq

/-- The seed data file: categories, authors, articles and the about
page blocks (global settings carry no varying part the model needs). -/
structure SeedData where
  categories : List String
  authors : List Author
  articles : List Article
  aboutBlocks : List Block
deriving DecidableEq

/-- Models `importArticles`: for each article in order, resolve the
cover image named by the slug, update the blocks, then create the
article document. -/
def importArticles : List Article → World → World
  | [], w => w
  | article :: restArticles, w =>
    let (_cover, w1) := checkFileExistsBeforeUpload [article.slug ++ ".jpg"] w
    let (_blocks, w2) := updateBlocks article.blocks w1
    importArticles restArticles (createDocument "api::article.article" article.slug w2)

/-- Models `importCategories`: create one category document per seed
category, in order. -/
def importCategories : List String → World → World
  | [], w => w
  | category :: restCategories, w =>
    importCategories restCategories (createDocument "api::category.category" category w)

/-- Models `importAuthors`: for each author resolve the avatar, then
create the author document. -/
def importAuthors : List Author → World → World
  | [], w => w
  | author :: restAuthors, w =>
    let (_avatar, w1) := checkFileExistsBeforeUpload [author.avatar] w
    importAuthors restAuthors (createDocument "api::author.author" author.key w1)

/-- Models `importGlobal`: resolve the favicon and the default share
image, then create the global document. -/
def importGlobal (w : World) : World :=
  let (_favicon, w1) := checkFileExistsBeforeUpload ["favicon.png"] w
  let (_shareImage, w2) := checkFileExistsBeforeUpload ["default-image.png"] w1
  createDocument "api::global.global" "global" w2

/-- Models `importAbout`: update the about page blocks, then create
the about document. -/
def importAbout (aboutBlocks : List Block) (w : World) : World :=
  let (_blocks, w1) := updateBlocks aboutBlocks w
  createDocument "api::about.about" "about" w1

/-- The fixed permission table passed by `importSeedData`. -/
def permissionTable : List (String × List String) :=
  [("article", ["find", "findOne"]), ("category", ["find", "findOne"]),
   ("author", ["find", "findOne"]), ("global", ["find", "findOne"]),
   ("about", ["find", "findOne"])]

/-- Models `setPublicPermissions`: all permission creations are issued
together and awaited jointly; a failing permission service rejects the
whole batch before any permission is recorded, otherwise one fully
qualified action per (controller, action) pair is created. -/
def setPublicPermissions (newPermissions : List (String × List String)) (w : World) :
    Except Err World :=
  if w.permFails then .error .permError
  else .ok { w with permissions := w.permissions ++
    (newPermissions.map (fun p =>
      p.2.map (fun action => "api::" ++ p.1 ++ "." ++ p.1 ++ "." ++ action))).flatten }

/-- Models `importSeedData`: grant public permissions, then import
categories, authors, articles, global and about in that order.  Only
the permission batch can reject here, and it rejects before mutating
anything. -/
def importSeedData (d : SeedData) (w : World) : Except Err World :=
  match setPublicPermissions permissionTable w with
  | .error e => .error e
  | .ok w1 =>
    let w2 := importCategories d.categories w1
    let w3 := importAuthors d.authors w2
    let w4 := importArticles d.articles w3
    let w5 := importGlobal w4
    let w6 := importAbout d.aboutBlocks w5
    .ok w6

/-- Models the get of the run-once key on the setup plugin store. -/
def pluginStoreGet (w : World) : Except Err (Option Bool) :=
  if w.storeFails then .error .storeError else .ok w.initHasRun

/-- Models the set of the run-once key on the setup plugin store. -/
def pluginStoreSet (value : Bool) (w : World) : Except Err World :=
  if w.storeFails then .error .storeError
  else .ok { w with initHasRun := some value }

/-- Models `isFirstRun`: read the run-once key, unconditionally set it
to true, and return the JS negation of the value read (an unset key is
falsy).  Store errors propagate to the caller. -/
def isFirstRun (w : World) : Except Err (Bool × World) :=
  match pluginStoreGet w with
  | .error e => .error e
  | .ok initHasRunVal =>
    match pluginStoreSet true w with
    | .error e => .error e
    | .ok w' => .ok (!(initHasRunVal.getD false), w')

/-- Models the exported entry point: `isFirstRun` is awaited before
and outside the try/catch; when it answers true the seed import runs
inside a try/catch that logs and swallows any error (the only interior
rejection point, the permission batch, fails before mutating, so the
caught branch keeps the pre-import world and appends the failure log
line). -/
def bootstrap (d : SeedData) (w : World) : Except Err World :=
  match isFirstRun w with
  | .error e => .error e
  | .ok (shouldImportSeedData, w1) =>
    if shouldImportSeedData then
      match importSeedData d w1 with
      | .ok w2 => .ok w2
      | .error _ => .ok { w1 with errlog := w1.errlog ++ [("bootstrap", "seed-failed")] }
    else .ok w1

/-- Specification-side description of the resolver's two output
groups, following the spec's words: walking the input in order with
the multiset of stored names, a filename whose stripped name is
already stored contributes its stripped name to the found group,
otherwise its before-first-dot name is uploaded, joins the stored
names, and is contributed to the uploaded group; both groups therefore
list names in input order. -/
def expectedNames (stored : List String) : List String → List String × List String
  | [] => ([], [])
  | f :: restFiles =>
    if stripName f ∈ stored then
      let (e, u) := expectedNames stored restFiles
      (stripName f :: e, u)
    else
      let (e, u) := expectedNames (stored ++ [fileNameNoExtension f]) restFiles
      (e, fileNameNoExtension f :: u)
/-- Configuration part of the world that no importer ever writes: the
run-once key, the failure switches and the failing-document set. -/
def Frame (w w' : World) : Prop :=
  w'.initHasRun = w.initHasRun ∧ w'.storeFails = w.storeFails ∧
  w'.permFails = w.permFails ∧ w'.failingDocs = w.failingDocs

/-- How one output block of `updateBlocks` relates to the input block
at the same position: same component tag, same other fields, media
blocks keep their slider field and vice versa, and a block of any
other tag is passed through identically. -/
def blockPreserved (b b' : Block) : Prop :=
  b'.component = b.component ∧ b'.rest = b.rest ∧
  (b.component ≠ "shared.media" → b.component ≠ "shared.slider" → b' = b) ∧
  (b.component = "shared.media" → b'.files = b.files) ∧
  (b.component = "shared.slider" → b'.file = b.file)

/-- A backend with nothing stored and no failure switch set. -/
def emptyWorld : World := ⟨none, false, false, [], [], 0, [], [], [], []⟩

/-- A backend whose asset store already holds one record named a. -/
def worldWithA : World := { emptyWorld with assets := [⟨0, "a"⟩], nextId := 1 }

/-- A backend whose asset store holds a record with id 5 named a. -/
def worldWithA5 : World := { emptyWorld with assets := [⟨5, "a"⟩], nextId := 6 }

/-- A backend on which creating the document keyed bad rejects. -/
def failWorld : World := { emptyWorld with failingDocs := ["bad"] }

/-- A backend whose plugin store rejects. -/
def storeFailWorld : World := { emptyWorld with storeFails := true }

/-- An empty seed data file. -/
def emptySeed : SeedData := ⟨[], [], [], []⟩

/-- An article whose creation succeeds on `failWorld`. -/
def artGood : Article := ⟨"good", []⟩

/-- An article whose creation rejects on `failWorld`. -/
def artBad : Article := ⟨"bad", []⟩

/-- A media block holding a bare filename string. -/
def mediaBlockEx : Block :=
  ⟨"shared.media", BlockField.str "pic.jpg", BlockField.absent, "body"⟩

/-- The block `updateBlocks` produces from `mediaBlockEx` on the empty
backend: the filename is replaced by the uploaded record. -/
def mediaOutEx : Block :=
  ⟨"shared.media", BlockField.res (FilesResult.one ⟨0, "pic"⟩), BlockField.absent, "body"⟩


/-! Helper lemmas about the filename stripping functions. -/

theorem splitOnDot_ne_nil (l : List Char) : splitOnDot l ≠ [] := by
  cases l with
  | nil => simp [splitOnDot]
  | cons c cs =>
    simp only [splitOnDot]
    by_cases h : c = '.'
    · simp [h]
    · simp only [h, if_false]
      cases hs : splitOnDot cs <;> simp [hs]

theorem splitOnDot_headD (l : List Char) : (splitOnDot l).headD [] = takeBeforeDot l := by
  induction l with
  | nil => rfl
  | cons c cs ih =>
    simp only [splitOnDot, takeBeforeDot]
    by_cases hc : c = '.'
    · simp [hc]
    · simp only [hc, if_false]
      cases hs : splitOnDot cs with
      | nil => exact absurd hs (splitOnDot_ne_nil cs)
      | cons p ps =>
        rw [hs] at ih
        simp only [List.headD] at ih ⊢
        simp [hc, ih]

theorem fileNameNoExtension_eq_takeBeforeDot (s : String) :
    fileNameNoExtension s = String.mk (takeBeforeDot s.data) := by
  rw [fileNameNoExtension, splitOnDot_headD]

theorem stripFromDot_of_noLT (l : List Char) (h : l.all (fun c => !isLineTerm c) = true) :
    stripFromDot l = takeBeforeDot l := by
  induction l with
  | nil => rfl
  | cons c cs ih =>
    simp only [List.all_cons, Bool.and_eq_true] at h
    simp only [stripFromDot, takeBeforeDot, h.2, Bool.and_true]
    by_cases hc : c = '.'
    · simp [hc]
    · simp [hc, ih h.2]

theorem stripName_of_noLT (s : String) (h : noLineTerm s = true) :
    stripName s = fileNameNoExtension s := by
  rw [stripName, fileNameNoExtension_eq_takeBeforeDot, stripFromDot_of_noLT _ h]

/-! Helper lemmas about the asset-store query. -/

theorem findOneFile_some_name {l : List FileRecord} {k : String} {r : FileRecord}
    (h : findOneFile l k = some r) : r.name = k := by
  have := List.find?_some h
  simpa using this

theorem findOneFile_mem {l : List FileRecord} {k : String} {r : FileRecord}
    (h : findOneFile l k = some r) : r ∈ l :=
  List.mem_of_find?_eq_some h

theorem findOneFile_append (l₁ l₂ : List FileRecord) (k : String) :
    findOneFile (l₁ ++ l₂) k = (findOneFile l₁ k).or (findOneFile l₂ k) :=
  List.find?_append

theorem findOneFile_none_iff {l : List FileRecord} {k : String} :
    findOneFile l k = none ↔ ∀ r ∈ l, r.name ≠ k := by
  simp [findOneFile, List.find?_eq_none]

theorem findOneFile_isSome_of_mem {l : List FileRecord} {k : String} {r : FileRecord}
    (hr : r ∈ l) (hk : r.name = k) : ∃ r', findOneFile l k = some r' := by
  have : (List.find? (fun x => x.name == k) l).isSome = true := by
    rw [List.find?_isSome]
    exact ⟨r, hr, by simp [hk]⟩
  rw [findOneFile]
  cases h : List.find? (fun x => x.name == k) l with
  | none => rw [h] at this; simp at this
  | some r' => exact ⟨r', rfl⟩

/-! Main specification lemma for the resolver loop: the accumulators
only grow, the asset store and the upload log grow by exactly the
newly uploaded records, one record is produced per input filename,
and every other field of the world is untouched. -/

theorem processFiles_spec (files : List String) (ex up : List FileRecord) (w : World) :
    ∃ E U w',
      processFiles files ex up w = ((ex ++ E, up ++ U), w') ∧
      w'.assets = w.assets ++ U ∧
      w'.uploadLog = w.uploadLog ++ U.map (fun r => r.name) ∧
      E.length + U.length = files.length ∧
      w'.initHasRun = w.initHasRun ∧ w'.storeFails = w.storeFails ∧
      w'.permFails = w.permFails ∧ w'.failingDocs = w.failingDocs ∧
      w'.createdDocs = w.createdDocs ∧ w'.errlog = w.errlog ∧
      w'.permissions = w.permissions := by
  induction files generalizing ex up w with
  | nil => exact ⟨[], [], w, by simp [processFiles]⟩
  | cons f rest ih =>
    cases hf : findOneFile w.assets (stripName f) with
    | some r =>
      obtain ⟨E, U, w', h1, h2, h3, h4, h5, h6, h7, h8, h9, h10, h11⟩ := ih (ex ++ [r]) up w
      refine ⟨r :: E, U, w', ?_, h2, h3, ?_, h5, h6, h7, h8, h9, h10, h11⟩
      · simp only [processFiles, hf]
        rw [h1]
        simp
      · simpa [Nat.add_assoc, Nat.add_comm, Nat.add_left_comm] using congrArg (· + 1) h4
    | none =>
      obtain ⟨E, U, w', h1, h2, h3, h4, h5, h6, h7, h8, h9, h10, h11⟩ :=
        ih ex (up ++ [{ id := w.nextId, name := fileNameNoExtension f }])
          { w with assets := w.assets ++ [{ id := w.nextId, name := fileNameNoExtension f }],
                   nextId := w.nextId + 1,
                   uploadLog := w.uploadLog ++ [fileNameNoExtension f] }
      refine ⟨E, { id := w.nextId, name := fileNameNoExtension f } :: U, w', ?_, ?_, ?_, ?_,
        h5, h6, h7, h8, h9, h10, h11⟩
      · simp only [processFiles, hf, uploadFile]
        rw [h1]
        simp
      · rw [h2]; simp
      · rw [h3]; simp
      · simp only [List.length_cons]
        omega

/-- The resolver loop over a concatenation is the loop over the first
part continued by the loop over the second part. -/
theorem processFiles_append (xs ys : List String) (ex up : List FileRecord) (w : World) :
    processFiles (xs ++ ys) ex up w =
      processFiles ys (processFiles xs ex up w).1.1 (processFiles xs ex up w).1.2
        (processFiles xs ex up w).2 := by
  induction xs generalizing ex up w with
  | nil => simp [processFiles]
  | cons f rest ih =>
    cases hf : findOneFile w.assets (stripName f) with
    | some r => simp only [List.cons_append, processFiles, hf]; exact ih ..
    | none => simp only [List.cons_append, processFiles, hf, uploadFile]; exact ih ..

/-- The world produced by the resolver loop does not depend on the
accumulated record lists: the store queries and uploads are driven by
the filenames and the world alone. -/
theorem processFiles_world_acc (files : List String) (ex up ex' up' : List FileRecord)
    (w : World) :
    (processFiles files ex up w).2 = (processFiles files ex' up' w).2 := by
  induction files generalizing ex up ex' up' w with
  | nil => rfl
  | cons f rest ih =>
    cases hf : findOneFile w.assets (stripName f) with
    | some r => simp only [processFiles, hf]; exact ih ..
    | none => simp only [processFiles, hf, uploadFile]; exact ih ..

/-- Names characterization of the resolver loop: the names of the
records in the two output groups are exactly the two groups described
by `expectedNames` on the names initially stored. -/
theorem processFiles_names (files : List String) (ex up : List FileRecord) (w : World) :
    ((processFiles files ex up w).1.1).map (fun r => r.name) =
      ex.map (fun r => r.name) ++ (expectedNames (w.assets.map (fun r => r.name)) files).1 ∧
    ((processFiles files ex up w).1.2).map (fun r => r.name) =
      up.map (fun r => r.name) ++ (expectedNames (w.assets.map (fun r => r.name)) files).2 := by
  induction files generalizing ex up w with
  | nil => simp [processFiles, expectedNames]
  | cons f rest ih =>
    by_cases hmem : stripName f ∈ w.assets.map (fun r => r.name)
    · obtain ⟨r, hr, hname⟩ : ∃ r ∈ w.assets, r.name = stripName f := by
        simpa using hmem
      obtain ⟨r', hfind⟩ := findOneFile_isSome_of_mem hr hname
      have hn' : r'.name = stripName f := findOneFile_some_name hfind
      obtain ⟨ihe, ihu⟩ := ih (ex ++ [r']) up w
      constructor
      · simp only [processFiles, hfind, expectedNames, hmem, if_true]
        rw [ihe]
        simp [hn']
      · simp only [processFiles, hfind, expectedNames, hmem, if_true]
        rw [ihu]
    · have hfind : findOneFile w.assets (stripName f) = none := by
        rw [findOneFile_none_iff]
        intro r hr hk
        exact hmem (by simpa using ⟨r, hr, hk⟩)
      obtain ⟨ihe, ihu⟩ := ih ex (up ++ [{ id := w.nextId, name := fileNameNoExtension f }])
        { w with assets := w.assets ++ [{ id := w.nextId, name := fileNameNoExtension f }],
                 nextId := w.nextId + 1,
                 uploadLog := w.uploadLog ++ [fileNameNoExtension f] }
      constructor
      · simp only [processFiles, hfind, uploadFile, expectedNames, hmem, if_false]
        rw [ihe]
        simp
      · simp only [processFiles, hfind, uploadFile, expectedNames, hmem, if_false]
        rw [ihu]
        simp

/-- The world component of `checkFileExistsBeforeUpload` is the world
component of its loop. -/
theorem checkFile_world (files : List String) (w : World) :
    (checkFileExistsBeforeUpload files w).2 = (processFiles files [] [] w).2 := by
  unfold checkFileExistsBeforeUpload
  rcases processFiles files [] [] w with ⟨⟨e, u⟩, w'⟩
  rfl

/-- The records carried by the result of `checkFileExistsBeforeUpload`
are the existing records followed by the uploaded records. -/
theorem checkFile_records (files : List String) (w : World) :
    resultRecords (checkFileExistsBeforeUpload files w).1 =
      (processFiles files [] [] w).1.1 ++ (processFiles files [] [] w).1.2 := by
  unfold checkFileExistsBeforeUpload
  rcases processFiles files [] [] w with ⟨⟨e, u⟩, w'⟩
  rcases hl : e ++ u with _ | ⟨a, _ | ⟨b, t⟩⟩ <;> simp [resultRecords, hl]

/-- A call of the resolver on a single filename returns a lone record,
never a list. -/
theorem checkFile_single (f : String) (w : World) :
    ∃ r, (checkFileExistsBeforeUpload [f] w).1 = FilesResult.one r := by
  unfold checkFileExistsBeforeUpload
  cases hf : findOneFile w.assets (stripName f) with
  | some r => exact ⟨r, by simp [processFiles, hf]⟩
  | none =>
    exact ⟨{ id := w.nextId, name := fileNameNoExtension f },
      by simp [processFiles, hf, uploadFile]⟩

theorem Frame.refl (w : World) : Frame w w := ⟨rfl, rfl, rfl, rfl⟩

theorem Frame.trans {w1 w2 w3 : World} (h1 : Frame w1 w2) (h2 : Frame w2 w3) :
    Frame w1 w3 :=
  ⟨h2.1.trans h1.1, h2.2.1.trans h1.2.1, h2.2.2.1.trans h1.2.2.1, h2.2.2.2.trans h1.2.2.2⟩

theorem processFiles_frame (files : List String) (ex up : List FileRecord) (w : World) :
    Frame w (processFiles files ex up w).2 ∧
      ((processFiles files ex up w).2).createdDocs = w.createdDocs ∧
      ((processFiles files ex up w).2).errlog = w.errlog := by
  obtain ⟨E, U, w', h1, _, _, _, h5, h6, h7, h8, h9, h10, _⟩ := processFiles_spec files ex up w
  rw [h1]
  exact ⟨⟨h5, h6, h7, h8⟩, h9, h10⟩

theorem checkFile_frame (files : List String) (w : World) :
    Frame w (checkFileExistsBeforeUpload files w).2 ∧
      ((checkFileExistsBeforeUpload files w).2).createdDocs = w.createdDocs ∧
      ((checkFileExistsBeforeUpload files w).2).errlog = w.errlog := by
  rw [checkFile_world]
  exact processFiles_frame files [] [] w

theorem updateBlocks_frame (blocks : List Block) (w : World) :
    Frame w (updateBlocks blocks w).2 ∧
      ((updateBlocks blocks w).2).createdDocs = w.createdDocs ∧
      ((updateBlocks blocks w).2).errlog = w.errlog := by
  induction blocks generalizing w with
  | nil => exact ⟨Frame.refl w, rfl, rfl⟩
  | cons block rest ih =>
    by_cases hm : block.component = "shared.media"
    · have hc := checkFile_frame [fieldString block.file] w
      have hr := ih (checkFileExistsBeforeUpload [fieldString block.file] w).2
      simp only [updateBlocks, hm, if_true]
      rcases hcb : checkFileExistsBeforeUpload [fieldString block.file] w with ⟨fr, w1⟩
      rw [hcb] at hc hr
      rcases hub : updateBlocks rest w1 with ⟨tl, w2⟩
      rw [hub] at hr
      exact ⟨(hc.1).trans hr.1, hr.2.1.trans hc.2.1, hr.2.2.trans hc.2.2⟩
    · by_cases hs : block.component = "shared.slider"
      · have hc := checkFile_frame (fieldStrings block.files) w
        have hr := ih (checkFileExistsBeforeUpload (fieldStrings block.files) w).2
        simp only [updateBlocks, hm, hs, if_true, if_false]
        rcases hcb : checkFileExistsBeforeUpload (fieldStrings block.files) w with ⟨fr, w1⟩
        rw [hcb] at hc hr
        rcases hub : updateBlocks rest w1 with ⟨tl, w2⟩
        rw [hub] at hr
        exact ⟨(hc.1).trans hr.1, hr.2.1.trans hc.2.1, hr.2.2.trans hc.2.2⟩
      · have hr := ih w
        simp only [updateBlocks, hm, hs, if_false]
        rcases hub : updateBlocks rest w with ⟨tl, w2⟩
        rw [hub] at hr
        exact hr

theorem createDocument_frame (model docKey : String) (w : World) :
    Frame w (createDocument model docKey w) ∧
      ∃ t, (createDocument model docKey w).createdDocs = w.createdDocs ++ t := by
  unfold createDocument documentsCreate
  by_cases h : docKey ∈ w.failingDocs
  · simp only [h, if_true]
    exact ⟨⟨rfl, rfl, rfl, rfl⟩, [], by simp⟩
  · simp only [h, if_false]
    exact ⟨⟨rfl, rfl, rfl, rfl⟩, [(model, docKey)], rfl⟩

theorem createDocument_creates (model docKey : String) (w : World)
    (h : docKey ∉ w.failingDocs) :
    (createDocument model docKey w).createdDocs = w.createdDocs ++ [(model, docKey)] := by
  simp [createDocument, documentsCreate, h]

theorem importArticles_frame (articlesL : List Article) (w : World) :
    Frame w (importArticles articlesL w) ∧
      ∃ t, (importArticles articlesL w).createdDocs = w.createdDocs ++ t := by
  induction articlesL generalizing w with
  | nil => exact ⟨Frame.refl w, [], by simp [importArticles]⟩
  | cons a rest ih =>
    simp only [importArticles]
    rcases hc : checkFileExistsBeforeUpload [a.slug ++ ".jpg"] w with ⟨cov, w1⟩
    rcases hb : updateBlocks a.blocks w1 with ⟨bl, w2⟩
    have h1 := checkFile_frame [a.slug ++ ".jpg"] w
    rw [hc] at h1
    have h2 := updateBlocks_frame a.blocks w1
    rw [hb] at h2
    have h3 := createDocument_frame "api::article.article" a.slug w2
    have h4 := ih (createDocument "api::article.article" a.slug w2)
    obtain ⟨t3, ht3⟩ := h3.2
    obtain ⟨t4, ht4⟩ := h4.2
    refine ⟨((h1.1.trans h2.1).trans h3.1).trans h4.1, t3 ++ t4, ?_⟩
    rw [ht4, ht3, h2.2.1, h1.2.1]
    simp

theorem importCategories_frame (cats : List String) (w : World) :
    Frame w (importCategories cats w) ∧
      ∃ t, (importCategories cats w).createdDocs = w.createdDocs ++ t := by
  induction cats generalizing w with
  | nil => exact ⟨Frame.refl w, [], by simp [importCategories]⟩
  | cons c rest ih =>
    simp only [importCategories]
    have h3 := createDocument_frame "api::category.category" c w
    have h4 := ih (createDocument "api::category.category" c w)
    obtain ⟨t3, ht3⟩ := h3.2
    obtain ⟨t4, ht4⟩ := h4.2
    exact ⟨h3.1.trans h4.1, t3 ++ t4, by rw [ht4, ht3]; simp⟩

theorem importAuthors_frame (authorsL : List Author) (w : World) :
    Frame w (importAuthors authorsL w) ∧
      ∃ t, (importAuthors authorsL w).createdDocs = w.createdDocs ++ t := by
  induction authorsL generalizing w with
  | nil => exact ⟨Frame.refl w, [], by simp [importAuthors]⟩
  | cons a rest ih =>
    simp only [importAuthors]
    rcases hc : checkFileExistsBeforeUpload [a.avatar] w with ⟨av, w1⟩
    have h1 := checkFile_frame [a.avatar] w
    rw [hc] at h1
    have h3 := createDocument_frame "api::author.author" a.key w1
    have h4 := ih (createDocument "api::author.author" a.key w1)
    obtain ⟨t3, ht3⟩ := h3.2
    obtain ⟨t4, ht4⟩ := h4.2
    exact ⟨(h1.1.trans h3.1).trans h4.1, t3 ++ t4, by rw [ht4, ht3, h1.2.1]; simp⟩

theorem importGlobal_frame (w : World) :
    Frame w (importGlobal w) ∧
      ∃ t, (importGlobal w).createdDocs = w.createdDocs ++ t := by
  unfold importGlobal
  rcases hc1 : checkFileExistsBeforeUpload ["favicon.png"] w with ⟨f1, w1⟩
  dsimp only
  rcases hc2 : checkFileExistsBeforeUpload ["default-image.png"] w1 with ⟨f2, w2⟩
  dsimp only
  have h1 := checkFile_frame ["favicon.png"] w
  rw [hc1] at h1
  dsimp only at h1
  have h2 := checkFile_frame ["default-image.png"] w1
  rw [hc2] at h2
  dsimp only at h2
  have h3 := createDocument_frame "api::global.global" "global" w2
  obtain ⟨t3, ht3⟩ := h3.2
  exact ⟨(h1.1.trans h2.1).trans h3.1, t3, by rw [ht3, h2.2.1, h1.2.1]⟩

theorem importAbout_frame (aboutBlocks : List Block) (w : World) :
    Frame w (importAbout aboutBlocks w) ∧
      ∃ t, (importAbout aboutBlocks w).createdDocs = w.createdDocs ++ t := by
  unfold importAbout
  rcases hb : updateBlocks aboutBlocks w with ⟨bl, w1⟩
  have h2 := updateBlocks_frame aboutBlocks w
  rw [hb] at h2
  have h3 := createDocument_frame "api::about.about" "about" w1
  obtain ⟨t3, ht3⟩ := h3.2
  exact ⟨h2.1.trans h3.1, t3, by rw [ht3, h2.2.1]⟩

theorem setPublicPermissions_ok {perms : List (String × List String)} {w w' : World}
    (h : setPublicPermissions perms w = .ok w') :
    Frame w w' ∧ w'.createdDocs = w.createdDocs := by
  unfold setPublicPermissions at h
  by_cases hp : w.permFails
  · simp [hp] at h
  · rw [if_neg (by simpa using hp)] at h
    cases h
    exact ⟨⟨rfl, rfl, rfl, rfl⟩, rfl⟩

theorem importSeedData_ok {d : SeedData} {w w' : World}
    (h : importSeedData d w = .ok w') :
    Frame w w' ∧ ∃ t, w'.createdDocs = w.createdDocs ++ t := by
  unfold importSeedData at h
  cases hp : setPublicPermissions permissionTable w with
  | error e => rw [hp] at h; cases h
  | ok w1 =>
    rw [hp] at h
    cases h
    obtain ⟨hf1, hd1⟩ := setPublicPermissions_ok hp
    have h2 := importCategories_frame d.categories w1
    have h3 := importAuthors_frame d.authors (importCategories d.categories w1)
    have h4 := importArticles_frame d.articles
      (importAuthors d.authors (importCategories d.categories w1))
    have h5 := importGlobal_frame
      (importArticles d.articles (importAuthors d.authors (importCategories d.categories w1)))
    have h6 := importAbout_frame d.aboutBlocks
      (importGlobal (importArticles d.articles
        (importAuthors d.authors (importCategories d.categories w1))))
    obtain ⟨t2, ht2⟩ := h2.2
    obtain ⟨t3, ht3⟩ := h3.2
    obtain ⟨t4, ht4⟩ := h4.2
    obtain ⟨t5, ht5⟩ := h5.2
    obtain ⟨t6, ht6⟩ := h6.2
    refine ⟨hf1.trans ((((h2.1.trans h3.1).trans h4.1).trans h5.1).trans h6.1),
      t2 ++ t3 ++ t4 ++ t5 ++ t6, ?_⟩
    rw [ht6, ht5, ht4, ht3, ht2, hd1]
    simp

theorem isFirstRun_ok {w : World} (h : w.storeFails = false) :
    isFirstRun w = .ok (!(w.initHasRun.getD false), { w with initHasRun := some true }) := by
  rw [isFirstRun, pluginStoreGet, pluginStoreSet, if_neg (by simp [h]), if_neg (by simp [h])]

theorem isFirstRun_fails {w : World} (h : w.storeFails = true) :
    isFirstRun w = .error Err.storeError := by
  rw [isFirstRun, pluginStoreGet, if_pos h]

theorem World.set_initHasRun_self {w : World} (h : w.initHasRun = some true) :
    { w with initHasRun := some true } = w := by
  cases w
  simp only [World.mk.injEq, and_true, true_and]
  simp only at h
  exact h.symm

theorem bootstrap_ok_flag {d : SeedData} {w w1 : World}
    (h : bootstrap d w = .ok w1) :
    w1.initHasRun = some true ∧ w1.storeFails = w.storeFails ∧
      w1.permFails = w.permFails ∧ w1.failingDocs = w.failingDocs := by
  cases hs : w.storeFails with
  | true => rw [bootstrap, isFirstRun_fails hs] at h; cases h
  | false =>
    rw [bootstrap, isFirstRun_ok hs] at h
    cases hb : !(w.initHasRun.getD false) with
    | false =>
      rw [hb] at h
      simp only [Bool.false_eq_true, if_false] at h
      cases h
      exact ⟨rfl, hs, rfl, rfl⟩
    | true =>
      rw [hb] at h
      simp only [if_true] at h
      cases him : importSeedData d { w with initHasRun := some true } with
      | ok w2 =>
        rw [him] at h
        cases h
        obtain ⟨hf, _⟩ := importSeedData_ok him
        exact ⟨hf.1, hf.2.1.trans hs, hf.2.2.1, hf.2.2.2⟩
      | error e =>
        rw [him] at h
        cases h
        exact ⟨rfl, hs, rfl, rfl⟩

theorem importArticles_creates (articlesL : List Article) (w : World) (a : Article)
    (ha : a ∈ articlesL) (hfail : a.slug ∉ w.failingDocs) :
    ("api::article.article", a.slug) ∈ (importArticles articlesL w).createdDocs := by
  induction articlesL generalizing w with
  | nil => cases ha
  | cons b rest ih =>
    simp only [importArticles]
    rcases hc : checkFileExistsBeforeUpload [b.slug ++ ".jpg"] w with ⟨cov, w1⟩
    dsimp only
    rcases hb : updateBlocks b.blocks w1 with ⟨bl, w2⟩
    dsimp only
    have h1 := checkFile_frame [b.slug ++ ".jpg"] w
    rw [hc] at h1
    dsimp only at h1
    have h2 := updateBlocks_frame b.blocks w1
    rw [hb] at h2
    dsimp only at h2
    have hfd2 : w2.failingDocs = w.failingDocs := by
      rw [h2.1.2.2.2, h1.1.2.2.2]
    rcases List.mem_cons.mp ha with hba | harest
    · subst hba
      have hcr := createDocument_creates "api::article.article" a.slug w2
        (by rw [hfd2]; exact hfail)
      have h4 := importArticles_frame rest (createDocument "api::article.article" a.slug w2)
      obtain ⟨t4, ht4⟩ := h4.2
      rw [ht4, hcr]
      simp
    · have h3 := createDocument_frame "api::article.article" b.slug w2
      have hfd3 : (createDocument "api::article.article" b.slug w2).failingDocs
          = w.failingDocs := by rw [h3.1.2.2.2, hfd2]
      exact ih (createDocument "api::article.article" b.slug w2) harest
        (by rw [hfd3]; exact hfail)

theorem updateBlocks_preserves (blocks : List Block) (w : World) :
    List.Forall₂ blockPreserved blocks (updateBlocks blocks w).1 := by
  induction blocks generalizing w with
  | nil => exact List.Forall₂.nil
  | cons block rest ih =>
    by_cases hm : block.component = "shared.media"
    · simp only [updateBlocks]
      rw [if_pos hm]
      rcases hcb : checkFileExistsBeforeUpload [fieldString block.file] w with ⟨fr, w1⟩
      dsimp only
      rcases hub : updateBlocks rest w1 with ⟨tl, w2⟩
      dsimp only
      refine List.Forall₂.cons ⟨rfl, rfl, fun h _ => absurd hm h, fun _ => rfl, fun hs => ?_⟩ ?_
      · exact absurd (hm.symm.trans hs) (by decide)
      · have := ih w1
        rw [hub] at this
        exact this
    · by_cases hs : block.component = "shared.slider"
      · simp only [updateBlocks]
        rw [if_neg hm, if_pos hs]
        rcases hcb : checkFileExistsBeforeUpload (fieldStrings block.files) w with ⟨fr, w1⟩
        dsimp only
        rcases hub : updateBlocks rest w1 with ⟨tl, w2⟩
        dsimp only
        refine List.Forall₂.cons
          ⟨rfl, rfl, fun _ h => absurd hs h, fun hm' => absurd hm' hm, fun _ => rfl⟩ ?_
        have := ih w1
        rw [hub] at this
        exact this
      · simp only [updateBlocks]
        rw [if_neg hm, if_neg hs]
        rcases hub : updateBlocks rest w with ⟨tl, w2⟩
        dsimp only
        refine List.Forall₂.cons ⟨rfl, rfl, fun _ _ => rfl, fun _ => rfl, fun _ => rfl⟩ ?_
        have := ih w
        rw [hub] at this
        exact this

theorem updateBlocks_resolves (blocks : List Block) (w : World) :
    ∀ b' ∈ (updateBlocks blocks w).1,
      (b'.component = "shared.media" →
        ∃ r, b'.file = BlockField.res (FilesResult.one r)) ∧
      (b'.component = "shared.slider" →
        ∃ fr, b'.files = BlockField.res fr) := by
  induction blocks generalizing w with
  | nil => intro b' hb'; simp [updateBlocks] at hb'
  | cons block rest ih =>
    intro b' hb'
    by_cases hm : block.component = "shared.media"
    · simp only [updateBlocks] at hb'
      rw [if_pos hm] at hb'
      rcases hcb : checkFileExistsBeforeUpload [fieldString block.file] w with ⟨fr, w1⟩
      rw [hcb] at hb'
      dsimp only at hb'
      rcases hub : updateBlocks rest w1 with ⟨tl, w2⟩
      rw [hub] at hb'
      dsimp only at hb'
      rcases List.mem_cons.mp hb' with hbc | hbt
      · subst hbc
        obtain ⟨r, hr⟩ := checkFile_single (fieldString block.file) w
        rw [hcb] at hr
        dsimp only at hr
        constructor
        · intro _
          exact ⟨r, by rw [hr]⟩
        · intro hsl
          dsimp only at hsl
          exact absurd (hm.symm.trans hsl) (by decide)
      · have := ih w1 b'
        rw [hub] at this
        exact this hbt
    · by_cases hs : block.component = "shared.slider"
      · simp only [updateBlocks] at hb'
        rw [if_neg hm, if_pos hs] at hb'
        rcases hcb : checkFileExistsBeforeUpload (fieldStrings block.files) w with ⟨fr, w1⟩
        rw [hcb] at hb'
        dsimp only at hb'
        rcases hub : updateBlocks rest w1 with ⟨tl, w2⟩
        rw [hub] at hb'
        dsimp only at hb'
        rcases List.mem_cons.mp hb' with hbc | hbt
        · subst hbc
          refine ⟨fun hm' => ?_, fun _ => ⟨fr, rfl⟩⟩
          dsimp only at hm'
          exact absurd hm' hm
        · have := ih w1 b'
          rw [hub] at this
          exact this hbt
      · simp only [updateBlocks] at hb'
        rw [if_neg hm, if_neg hs] at hb'
        rcases hub : updateBlocks rest w with ⟨tl, w2⟩
        rw [hub] at hb'
        dsimp only at hb'
        rcases List.mem_cons.mp hb' with hbc | hbt
        · subst hbc
          exact ⟨fun hm' => absurd hm' hm, fun hs' => absurd hs' hs⟩
        · have := ih w b'
          rw [hub] at this
          exact this hbt

/-- One record comes out of the resolver per input filename. -/
theorem resultRecords_length (files : List String) (w : World) :
    (resultRecords (checkFileExistsBeforeUpload files w).1).length = files.length := by
  rw [checkFile_records]
  obtain ⟨E, U, w', h1, _, _, h4, _⟩ := processFiles_spec files [] [] w
  rw [h1]
  simp only [List.nil_append, List.length_append]
  exact h4

/-- When every input filename is line-terminator free, has a stripped
name distinct from all the others and unknown to the asset store, the
loop uploads exactly one file per input, in input order. -/
theorem uploads_all_new (files : List String) (ex up : List FileRecord) (w : World)
    (hnodup : (files.map stripName).Nodup)
    (hnlt : ∀ f ∈ files, noLineTerm f = true)
    (hnone : ∀ f ∈ files, findOneFile w.assets (stripName f) = none) :
    ((processFiles files ex up w).2).uploadLog =
      w.uploadLog ++ files.map fileNameNoExtension := by
  induction files generalizing ex up w with
  | nil => simp [processFiles]
  | cons f rest ih =>
    have hnodup' : stripName f ∉ List.map stripName rest ∧
        (List.map stripName rest).Nodup := by simpa using hnodup
    have hf : findOneFile w.assets (stripName f) = none := hnone f (by simp)
    have hnone2 : ∀ g ∈ rest,
        findOneFile (w.assets ++ [{ id := w.nextId, name := fileNameNoExtension f }])
          (stripName g) = none := by
      intro g hg
      rw [findOneFile_append, hnone g (List.mem_cons_of_mem f hg)]
      have hne : fileNameNoExtension f ≠ stripName g := by
        rw [← stripName_of_noLT f (hnlt f (by simp))]
        intro hc
        exact hnodup'.1 (hc ▸ List.mem_map_of_mem stripName hg)
      have hsingle : findOneFile [{ id := w.nextId, name := fileNameNoExtension f }]
          (stripName g) = none := by
        rw [findOneFile_none_iff]
        intro r hr
        simp only [List.mem_singleton] at hr
        rw [hr]
        exact hne
      rw [hsingle]
      rfl
    simp only [processFiles, hf, uploadFile]
    have hih := ih ex (up ++ [({ id := w.nextId, name := fileNameNoExtension f } : FileRecord)])
        { w with assets := w.assets ++ [{ id := w.nextId, name := fileNameNoExtension f }],
                 nextId := w.nextId + 1,
                 uploadLog := w.uploadLog ++ [fileNameNoExtension f] }
        hnodup'.2
        (fun g hg => hnlt g (List.mem_cons_of_mem f hg))
        hnone2
    rw [hih]
    simp

/-- C1: on a first invocation of the exported entry point with the
run-once flag unset or false, `isFirstRun` sets the flag to true and
returns true; after an invocation of the entry point has completed
(the flag is persisted as true), `isFirstRun` returns false and the
entry point skips the seed import, leaving the world unchanged. -/
theorem c1_run_once_guard (d d' : SeedData) (w w1 : World)
    (hs : w.storeFails = false) :
    ((w.initHasRun = none ∨ w.initHasRun = some false) →
        isFirstRun w = .ok (true, { w with initHasRun := some true })) ∧
    (bootstrap d w = .ok w1 →
        isFirstRun w1 = .ok (false, w1) ∧ bootstrap d' w1 = .ok w1) := by
  constructor
  · intro hflag
    rw [isFirstRun_ok hs]
    rcases hflag with h | h <;> rw [h] <;> rfl
  · intro hboot
    obtain ⟨hflag1, hsf1, _, _⟩ := bootstrap_ok_flag hboot
    have hs1 : w1.storeFails = false := hsf1.trans hs
    have heq : ({ w1 with initHasRun := some true } : World) = w1 :=
      World.set_initHasRun_self hflag1
    constructor
    · rw [isFirstRun_ok hs1, hflag1, heq]
      rfl
    · rw [bootstrap, isFirstRun_ok hs1, hflag1, heq]
      rfl

/-- Witness for C1 at the empty backend: its flag is unset, so the
guard answers true and persists the flag. -/
theorem c1_run_once_guard_witness :
    isFirstRun emptyWorld = .ok (true, { emptyWorld with initHasRun := some true }) :=
  (c1_run_once_guard emptySeed emptySeed emptyWorld emptyWorld rfl).1 (Or.inl rfl)

/-- C2: a filename whose stripped name already matches a record of
the asset store is resolved by reusing that very record and triggers
no upload for it: the found record is a pre-existing store record
whose name is the stripped name, processing the filename extends only
the existing-records group and leaves the world untouched, the record
appears in the resolver's output, and the backend state after the
whole call is identical to the state a call without that filename
would have produced (so no upload is performed for it). -/
theorem c2_existing_file_reused (w : World) (xs ys : List String) (f : String)
    (r : FileRecord) (hf : findOneFile w.assets (stripName f) = some r) :
    r ∈ w.assets ∧ r.name = stripName f ∧
    (∃ ex1 up1 w1,
      processFiles xs [] [] w = ((ex1, up1), w1) ∧
      processFiles (xs ++ f :: ys) [] [] w = processFiles ys (ex1 ++ [r]) up1 w1) ∧
    r ∈ resultRecords (checkFileExistsBeforeUpload (xs ++ f :: ys) w).1 ∧
    (checkFileExistsBeforeUpload (xs ++ f :: ys) w).2 =
      (checkFileExistsBeforeUpload (xs ++ ys) w).2 := by
  obtain ⟨E, U, w1, h1, h2, _, _, _⟩ := processFiles_spec xs [] [] w
  have h1' : processFiles xs [] [] w = ((E, U), w1) := by simpa using h1
  have hfind1 : findOneFile w1.assets (stripName f) = some r := by
    rw [h2, findOneFile_append, hf]
    rfl
  have hstep : processFiles (xs ++ f :: ys) [] [] w = processFiles ys (E ++ [r]) U w1 := by
    rw [processFiles_append, h1']
    dsimp only
    simp only [processFiles, hfind1]
  have hdrop : processFiles (xs ++ ys) [] [] w = processFiles ys E U w1 := by
    rw [processFiles_append, h1']
  refine ⟨findOneFile_mem hf, findOneFile_some_name hf, ⟨E, U, w1, h1', hstep⟩, ?_, ?_⟩
  · rw [checkFile_records, hstep]
    obtain ⟨E2, U2, w2, g1, _, _, _, _⟩ := processFiles_spec ys (E ++ [r]) U w1
    rw [g1]
    simp
  · rw [checkFile_world, checkFile_world, hstep, hdrop]
    exact processFiles_world_acc ys (E ++ [r]) U E U w1

/-- Witness for C2: with a record named a already stored, resolving
the batch b.png, a.jpg, c.png reuses that record for a.jpg, and the
backend ends in exactly the state that resolving b.png, c.png alone
produces. -/
theorem c2_existing_file_reused_witness :
    (⟨5, "a"⟩ : FileRecord) ∈ worldWithA5.assets ∧
    (⟨5, "a"⟩ : FileRecord).name = stripName "a.jpg" ∧
    (∃ ex1 up1 w1,
      processFiles ["b.png"] [] [] worldWithA5 = ((ex1, up1), w1) ∧
      processFiles (["b.png"] ++ "a.jpg" :: ["c.png"]) [] [] worldWithA5 =
        processFiles ["c.png"] (ex1 ++ [⟨5, "a"⟩]) up1 w1) ∧
    (⟨5, "a"⟩ : FileRecord) ∈
      resultRecords (checkFileExistsBeforeUpload (["b.png"] ++ "a.jpg" :: ["c.png"]) worldWithA5).1 ∧
    (checkFileExistsBeforeUpload (["b.png"] ++ "a.jpg" :: ["c.png"]) worldWithA5).2 =
      (checkFileExistsBeforeUpload (["b.png"] ++ ["c.png"]) worldWithA5).2 :=
  c2_existing_file_reused worldWithA5 ["b.png"] ["c.png"] "a.jpg" ⟨5, "a"⟩ (by decide)

/-- Counterexample to C3 as stated: the two filenames are distinct and
neither stripped name matches an existing record, yet only one upload
happens (the second filename strips to the name just uploaded for the
first one), so the upload count is 1, not N = 2; the returned
collection still has 2 records. -/
theorem c3_distinct_filenames_counterexample :
    ("a.x.jpg" : String) ≠ "a.y.jpg" ∧
    findOneFile emptyWorld.assets (stripName "a.x.jpg") = none ∧
    findOneFile emptyWorld.assets (stripName "a.y.jpg") = none ∧
    ((checkFileExistsBeforeUpload ["a.x.jpg", "a.y.jpg"] emptyWorld).2).uploadLog = ["a"] ∧
    ((checkFileExistsBeforeUpload ["a.x.jpg", "a.y.jpg"] emptyWorld).2).uploadLog.length ≠ 2 ∧
    (resultRecords (checkFileExistsBeforeUpload ["a.x.jpg", "a.y.jpg"] emptyWorld).1).length = 2 := by
  decide

/-- C3 amended: for N line-terminator-free filenames with pairwise
distinct stripped names, none matching an existing asset record,
exactly N uploads occur (one per filename, in input order) and the
result carries N records. -/
theorem c3_distinct_stems_uploads (files : List String) (w : World)
    (hnodup : (files.map stripName).Nodup)
    (hnlt : ∀ f ∈ files, noLineTerm f = true)
    (hnone : ∀ f ∈ files, findOneFile w.assets (stripName f) = none) :
    ((checkFileExistsBeforeUpload files w).2).uploadLog =
      w.uploadLog ++ files.map fileNameNoExtension ∧
    ((checkFileExistsBeforeUpload files w).2).uploadLog.length =
      w.uploadLog.length + files.length ∧
    (resultRecords (checkFileExistsBeforeUpload files w).1).length = files.length := by
  have h := uploads_all_new files [] [] w hnodup hnlt hnone
  rw [checkFile_world]
  exact ⟨h, by rw [h]; simp, resultRecords_length files w⟩

/-- Witness for C3 amended at two fresh filenames with distinct stems
on the empty backend. -/
theorem c3_distinct_stems_uploads_witness :
    ((checkFileExistsBeforeUpload ["a.jpg", "b.png"] emptyWorld).2).uploadLog =
      emptyWorld.uploadLog ++ ["a.jpg", "b.png"].map fileNameNoExtension ∧
    ((checkFileExistsBeforeUpload ["a.jpg", "b.png"] emptyWorld).2).uploadLog.length =
      emptyWorld.uploadLog.length + (["a.jpg", "b.png"] : List String).length ∧
    (resultRecords (checkFileExistsBeforeUpload ["a.jpg", "b.png"] emptyWorld).1).length =
      (["a.jpg", "b.png"] : List String).length :=
  c3_distinct_stems_uploads ["a.jpg", "b.png"] emptyWorld (by decide) (by decide) (by decide)

/-- C4: the resolver called on exactly one filename returns the lone
record itself, not a one-element collection. -/
theorem c4_single_input_scalar (w : World) (f : String) :
    ∃ r, (checkFileExistsBeforeUpload [f] w).1 = FilesResult.one r :=
  checkFile_single f w

/-- Counterexample to the order clause of C5: with a record named a
stored and input a.jpg then b.jpg, the found group and the uploaded
group are both non-empty, yet the output lists the records in exactly
the input order (the i-th output record resolves the i-th input
filename), contradicting that the output order always differs from
the input order in that situation. -/
theorem c5_order_counterexample :
    (processFiles ["a.jpg", "b.jpg"] [] [] worldWithA).1.1 = [⟨0, "a"⟩] ∧
    (processFiles ["a.jpg", "b.jpg"] [] [] worldWithA).1.2 = [⟨1, "b"⟩] ∧
    (resultRecords (checkFileExistsBeforeUpload ["a.jpg", "b.jpg"] worldWithA).1).map
      (fun r => r.name) = (["a.jpg", "b.jpg"] : List String).map stripName := by
  decide

/-- C5 amended: on two or more filenames the resolver returns a
collection listing first the records found in the asset store at the
time each filename was processed, then the newly uploaded records,
each group in input order (as described by `expectedNames`); the
output order can therefore differ from the input order, though it
need not. -/
theorem c5_existing_first_uploaded_second (files : List String) (w : World)
    (hlen : 2 ≤ files.length) :
    ∃ ex up,
      (checkFileExistsBeforeUpload files w).1 = FilesResult.many (ex ++ up) ∧
      ex.map (fun r => r.name) = (expectedNames (w.assets.map (fun r => r.name)) files).1 ∧
      up.map (fun r => r.name) = (expectedNames (w.assets.map (fun r => r.name)) files).2 := by
  obtain ⟨E, U, w', h1, _, _, h4, _⟩ := processFiles_spec files [] [] w
  have h1' : processFiles files [] [] w = ((E, U), w') := by simpa using h1
  obtain ⟨he, hu⟩ := processFiles_names files [] [] w
  rw [h1'] at he hu
  dsimp only at he hu
  simp only [List.map_nil, List.nil_append] at he hu
  refine ⟨E, U, ?_, he, hu⟩
  unfold checkFileExistsBeforeUpload
  rw [h1']
  dsimp only
  rcases hl : E ++ U with _ | ⟨a, _ | ⟨b, t⟩⟩
  · rfl
  · exfalso
    have h5 := congrArg List.length hl
    simp only [List.length_append, List.length_singleton] at h5
    omega
  · rfl

/-- Witness for C5 amended at the concrete mixed batch: one stored
record is found, one file is uploaded, existing group first. -/
theorem c5_existing_first_uploaded_second_witness :
    ∃ ex up,
      (checkFileExistsBeforeUpload ["a.jpg", "b.jpg"] worldWithA).1 =
        FilesResult.many (ex ++ up) ∧
      ex.map (fun r => r.name) =
        (expectedNames (worldWithA.assets.map (fun r => r.name)) ["a.jpg", "b.jpg"]).1 ∧
      up.map (fun r => r.name) =
        (expectedNames (worldWithA.assets.map (fun r => r.name)) ["a.jpg", "b.jpg"]).2 :=
  c5_existing_first_uploaded_second ["a.jpg", "b.jpg"] worldWithA (by decide)

/-- C6: `updateBlocks` returns a sequence of the same length in which
every block relates to the input block at the same position by
`blockPreserved`: a block tagged neither media nor slider is returned
identically, and a modified block is a copy agreeing with the input on
the component tag and on every field other than the one resolved (in
this pure model the input sequence itself is of course unchanged,
which is the meaning of the no-mutation clause). -/
theorem c6_other_blocks_pass_through (blocks : List Block) (w : World) :
    List.Forall₂ blockPreserved blocks (updateBlocks blocks w).1 ∧
    (updateBlocks blocks w).1.length = blocks.length := by
  have h := updateBlocks_preserves blocks w
  exact ⟨h, h.length_eq.symm⟩

/-- C7: in the output of `updateBlocks`, every media-tagged block
holds a resolved lone record in its file field (never a bare filename
string) and every slider-tagged block holds a resolved collection of
records in its files field (no filename strings). -/
theorem c7_media_slider_resolved (blocks : List Block) (w : World) (b' : Block)
    (hb' : b' ∈ (updateBlocks blocks w).1) :
    (b'.component = "shared.media" →
      ∃ r, b'.file = BlockField.res (FilesResult.one r)) ∧
    (b'.component = "shared.slider" →
      ∃ fr, b'.files = BlockField.res fr) :=
  updateBlocks_resolves blocks w b' hb'

/-- Witness for C7 at a concrete media block on the empty backend. -/
theorem c7_media_slider_resolved_witness :
    (mediaOutEx.component = "shared.media" →
      ∃ r, mediaOutEx.file = BlockField.res (FilesResult.one r)) ∧
    (mediaOutEx.component = "shared.slider" →
      ∃ fr, mediaOutEx.files = BlockField.res fr) :=
  c7_media_slider_resolved [mediaBlockEx] emptyWorld mediaOutEx (by decide)

/-- C8: a rejected document creation is caught inside `createDocument`,
which logs the model and document and returns normally; consequently
in a batch of articles every article whose creation does not reject is
still created, whatever other articles of the batch do. -/
theorem c8_create_failure_swallowed :
    (∀ (model docKey : String) (w : World), docKey ∈ w.failingDocs →
      createDocument model docKey w = { w with errlog := w.errlog ++ [(model, docKey)] }) ∧
    (∀ (articlesL : List Article) (w : World) (a : Article), a ∈ articlesL →
      a.slug ∉ w.failingDocs →
      ("api::article.article", a.slug) ∈ (importArticles articlesL w).createdDocs) := by
  constructor
  · intro model docKey w h
    simp [createDocument, documentsCreate, h]
  · exact fun l w a ha hf => importArticles_creates l w a ha hf

/-- Witness for C8: on a backend where creating bad rejects, creating
bad logs and returns, and in the batch bad then good the article good
is still created. -/
theorem c8_create_failure_swallowed_witness :
    createDocument "api::article.article" "bad" failWorld
      = { failWorld with errlog := failWorld.errlog ++ [("api::article.article", "bad")] } ∧
    ("api::article.article", "good") ∈ (importArticles [artBad, artGood] failWorld).createdDocs :=
  ⟨c8_create_failure_swallowed.1 "api::article.article" "bad" failWorld (by decide),
   c8_create_failure_swallowed.2 [artBad, artGood] failWorld artGood (by decide) (by decide)⟩

/-- Counterexample to C9 as stated: `isFirstRun` is awaited outside
the try/catch of the exported entry point, so an error raised by the
run-once guard's store access is not caught: the entry point itself
rejects instead of returning normally. -/
theorem c9_store_error_propagates :
    bootstrap emptySeed storeFailWorld = Except.error Err.storeError := by
  rfl

/-- C9 amended: an error raised inside the seed import (permission
grants and entity imports) is caught and swallowed by the entry
point's try/catch, which then returns normally; but an error from the
run-once guard's store operations happens before that try/catch and
propagates out of the entry point. -/
theorem c9_seed_errors_swallowed (d : SeedData) (w : World) :
    (w.storeFails = true → bootstrap d w = Except.error Err.storeError) ∧
    (w.storeFails = false → ∃ w', bootstrap d w = Except.ok w') := by
  constructor
  · intro h
    rw [bootstrap, isFirstRun_fails h]
  · intro h
    rw [bootstrap, isFirstRun_ok h]
    dsimp only
    cases hb : !(w.initHasRun.getD false) with
    | false =>
      exact ⟨{ w with initHasRun := some true }, rfl⟩
    | true =>
      simp only [if_true]
      cases him : importSeedData d { w with initHasRun := some true } with
      | ok w2 => exact ⟨w2, rfl⟩
      | error e => exact ⟨_, rfl⟩

/-- Witness for C9 amended: a failing store makes the entry point
reject; on the healthy empty backend the entry point returns normally
whatever happens inside the import. -/
theorem c9_seed_errors_swallowed_witness :
    bootstrap emptySeed { emptyWorld with storeFails := true } = Except.error Err.storeError ∧
    ∃ w', bootstrap emptySeed emptyWorld = Except.ok w' :=
  ⟨(c9_seed_errors_swallowed emptySeed { emptyWorld with storeFails := true }).1 rfl,
   (c9_seed_errors_swallowed emptySeed emptyWorld).2 rfl⟩

/-- Counterexample to C10 as stated: on a filename containing a line
terminator after a dot the lookup key (computed by the replace with a
dot-to-end regex, whose wildcard cannot cross a line terminator) is
the whole unchanged filename, not the substring before the first dot,
while the upload name (first component of the split at dots) is that
substring; the two therefore differ. -/
theorem c10_newline_counterexample :
    stripName "a.\nb" ≠ String.mk (takeBeforeDot ("a.\nb").data) ∧
    stripName "a.\nb" = "a.\nb" ∧
    fileNameNoExtension "a.\nb" = "a" ∧
    stripName "a.\nb" ≠ fileNameNoExtension "a.\nb" := by
  decide

/-- C10 amended: for filenames free of line terminators, the lookup
key and the upload name both equal the substring before the first
dot; consequently, for two such filenames with the same stripped
name, after either one is resolved (found or uploaded), resolving the
other finds the stored record, uploads nothing and returns that lone
record. -/
theorem c10_stem_key_and_name (w : World) (s₁ s₂ : String)
    (h₁ : noLineTerm s₁ = true) (h₂ : noLineTerm s₂ = true)
    (hst : stripName s₂ = stripName s₁) (hne : s₁ ≠ s₂) :
    (stripName s₁ = String.mk (takeBeforeDot s₁.data) ∧
     fileNameNoExtension s₁ = String.mk (takeBeforeDot s₁.data)) ∧
    ((checkFileExistsBeforeUpload [s₂] (checkFileExistsBeforeUpload [s₁] w).2).2).uploadLog =
      ((checkFileExistsBeforeUpload [s₁] w).2).uploadLog ∧
    ∃ r, (checkFileExistsBeforeUpload [s₂] (checkFileExistsBeforeUpload [s₁] w).2).1 =
        FilesResult.one r ∧
      r ∈ ((checkFileExistsBeforeUpload [s₁] w).2).assets ∧ r.name = stripName s₂ := by
  have hpart1 : stripName s₁ = String.mk (takeBeforeDot s₁.data) := by
    rw [stripName, stripFromDot_of_noLT _ h₁]
  have hk : ∃ r₀, findOneFile ((checkFileExistsBeforeUpload [s₁] w).2).assets
      (stripName s₁) = some r₀ := by
    rw [checkFile_world]
    cases hf : findOneFile w.assets (stripName s₁) with
    | some r =>
      have hone : processFiles [s₁] [] [] w = (([r], []), w) := by
        simp [processFiles, hf]
      rw [hone]
      exact ⟨r, hf⟩
    | none =>
      have hone : (processFiles [s₁] [] [] w).2 =
          { w with assets := w.assets ++ [⟨w.nextId, fileNameNoExtension s₁⟩],
                   nextId := w.nextId + 1,
                   uploadLog := w.uploadLog ++ [fileNameNoExtension s₁] } := by
        simp [processFiles, hf, uploadFile]
      rw [hone]
      refine ⟨⟨w.nextId, fileNameNoExtension s₁⟩, ?_⟩
      rw [findOneFile_append, hf]
      have hname : (⟨w.nextId, fileNameNoExtension s₁⟩ : FileRecord).name == stripName s₁ := by
        simp only [stripName_of_noLT s₁ h₁]
        exact beq_self_eq_true (fileNameNoExtension s₁)
      simp [findOneFile, List.find?, hname]
  obtain ⟨r₀, hr₀⟩ := hk
  have hr₂ : findOneFile ((checkFileExistsBeforeUpload [s₁] w).2).assets
      (stripName s₂) = some r₀ := by rw [hst]; exact hr₀
  have hproc : processFiles [s₂] [] [] ((checkFileExistsBeforeUpload [s₁] w).2) =
      (([r₀], []), (checkFileExistsBeforeUpload [s₁] w).2) := by
    simp [processFiles, hr₂]
  have houter : ∀ v : World, processFiles [s₂] [] [] v = (([r₀], []), v) →
      (checkFileExistsBeforeUpload [s₂] v).1 = FilesResult.one r₀ := by
    intro v hv
    unfold checkFileExistsBeforeUpload
    rw [hv]
    rfl
  refine ⟨⟨hpart1, by rw [fileNameNoExtension_eq_takeBeforeDot]⟩, ?_, ⟨r₀, ?_, ?_, ?_⟩⟩
  · rw [checkFile_world [s₂], hproc]
  · exact houter _ hproc
  · exact findOneFile_mem hr₂
  · exact findOneFile_some_name hr₂

/-- Witness for C10 amended at the two filenames of the claim, which
share the stem photo, on the empty backend. -/
theorem c10_stem_key_and_name_witness :
    (stripName "photo.small.jpg" = String.mk (takeBeforeDot ("photo.small.jpg" : String).data) ∧
     fileNameNoExtension "photo.small.jpg" =
       String.mk (takeBeforeDot ("photo.small.jpg" : String).data)) ∧
    ((checkFileExistsBeforeUpload ["photo.large.jpg"]
        (checkFileExistsBeforeUpload ["photo.small.jpg"] emptyWorld).2).2).uploadLog =
      ((checkFileExistsBeforeUpload ["photo.small.jpg"] emptyWorld).2).uploadLog ∧
    ∃ r, (checkFileExistsBeforeUpload ["photo.large.jpg"]
        (checkFileExistsBeforeUpload ["photo.small.jpg"] emptyWorld).2).1 =
        FilesResult.one r ∧
      r ∈ ((checkFileExistsBeforeUpload ["photo.small.jpg"] emptyWorld).2).assets ∧
      r.name = stripName "photo.large.jpg" :=
  c10_stem_key_and_name emptyWorld "photo.small.jpg" "photo.large.jpg"
    (by decide) (by decide) (by decide) (by decide)
